import Mathlib

/-!
# Link shortener with hit analytics: a shallow embedding of `server.js`

The service keeps two in-memory stores, a `Map` from slug to destination
(`links`) and an array of hit records (`hits`).  Every route handler of
`server.js` is embedded below as a pure function over these stores; the
handlers that mutate a store return the new store next to their response.

JavaScript strings are modelled as lists of characters; the string operations
used by the server (splitting at `','`, trimming, testing and cutting the
ASCII prefix `'Bearer '`, doubling `'"'`, joining) act character by character.
`undefined` is `none`.  The `||` operator of JavaScript is `jsOr`: a value is
*falsy* when it is `undefined` or the empty string.  The user-agent parser is
a library and the clock is the environment: both are parameters of `trackHit`.
-/

namespace LinkShortener

/-- A JavaScript string. -/
abbrev Str := List Char

/-- Truthiness of a possibly-undefined string: `undefined` and `''` are falsy. -/
def truthy : Option Str → Bool
  | none => false
  | some s => !s.isEmpty

/-- The expression `a || b` on possibly-undefined strings. -/
def jsOr (a b : Option Str) : Option Str :=
  if truthy a then a else b

/-- The expression `a || d` with a string literal `d` as its right operand. -/
def jsOrD (a : Option Str) (d : Str) : Str :=
  match a with
  | some s => if s.isEmpty then d else s
  | none => d

/-- Code points removed by `String.prototype.trim`: the ECMAScript
`WhiteSpace` and `LineTerminator` productions. -/
def isTrimChar (c : Char) : Bool :=
  let n := c.toNat
  n == 0x09 || n == 0x0A || n == 0x0B || n == 0x0C || n == 0x0D || n == 0x20 ||
  n == 0xA0 || n == 0x1680 || (0x2000 ≤ n && n ≤ 0x200A) || n == 0x2028 ||
  n == 0x2029 || n == 0x202F || n == 0x205F || n == 0x3000 || n == 0xFEFF

/-- The method `s.trim()`. -/
def jsTrim (s : Str) : Str :=
  (s.dropWhile isTrimChar).rdropWhile isTrimChar

/-- The expression `s.split(',')[0]`: the text before the first comma. -/
def firstCommaEntry (s : Str) : Str :=
  (s.splitOn ',').headD []

/-- The part of an incoming request that `server.js` reads: the headers it
looks up in `req.headers`, and the three places it takes the peer address
from. -/
structure Req where
  xForwardedFor : Option Str
  xRealIp : Option Str
  userAgent : Option Str
  referer : Option Str
  referrer : Option Str
  acceptLanguage : Option Str
  authorization : Option Str
  connectionRemoteAddress : Option Str
  socketRemoteAddress : Option Str
  ip : Option Str

/-- The function `getClientIP(req)`:
`req.headers['x-forwarded-for']?.split(',')[0].trim() || req.headers['x-real-ip']
 || req.connection.remoteAddress || req.socket.remoteAddress || req.ip`. -/
def getClientIP (req : Req) : Option Str :=
  jsOr (req.xForwardedFor.map fun h => jsTrim (firstCommaEntry h))
    (jsOr req.xRealIp
      (jsOr req.connectionRemoteAddress
        (jsOr req.socketRemoteAddress req.ip)))

/-- What a middleware does with a request: answer it with a status and an
error message, or hand it to the route handler by calling `next()`. -/
inductive AuthOutcome where
  | reject (status : Nat) (error : Str)
  | next
  deriving DecidableEq, Repr

/-- The test `ALLOWED_ADMIN_IPS.includes(ip)`; the allowlist holds strings
only, so an undefined `ip` is never included. -/
def includesIP (allowed : List Str) : Option Str → Bool
  | none => false
  | some s => allowed.contains s

/-- The test `auth.startsWith('Bearer ')`. -/
def startsWithBearer (auth : Str) : Bool :=
  "Bearer ".toList.isPrefixOf auth

/-- The function `authAdmin(req, res, next)`, for the configured allowlist
`ALLOWED_ADMIN_IPS` and password `ADMIN_PASSWORD`. -/
def authAdmin (allowedAdminIps : List Str) (adminPassword : Str) (req : Req) : AuthOutcome :=
  let ip := getClientIP req
  if !includesIP allowedAdminIps ip && !allowedAdminIps.contains "*".toList then
    .reject 403 "IP not allowed".toList
  else
    match req.authorization with
    | none => .reject 401 "Missing or invalid authorization header".toList
    | some auth =>
      if auth.isEmpty || !startsWithBearer auth then
        .reject 401 "Missing or invalid authorization header".toList
      else
        let password := auth.drop 7
        if password ≠ adminPassword then
          .reject 401 "Invalid password".toList
        else
          .next

/-! ## Hit tracking -/

/-- One record of the Hit Log, as built by `trackHit`.  `ip` is whatever
`getClientIP` returned, which may be `undefined`. -/
structure Hit where
  type : Str
  slug : Str
  ip : Option Str
  timestamp : Str
  userAgent : Str
  browser : Str
  os : Str
  device : Str
  referer : Str
  acceptLanguage : Str
  deriving DecidableEq, Repr

/-- The fields of `new UAParser(ua).getResult()` that `parseUserAgent` reads.
The parser is a third-party library: its result is taken as given. -/
structure UAResult where
  browserName : Option Str
  browserVersion : Option Str
  osName : Option Str
  osVersion : Option Str
  deviceType : Option Str

/-- The object returned by `parseUserAgent`. -/
structure ParsedUA where
  browser : Str
  os : Str
  device : Str

/-- The function `parseUserAgent(req)`, over the library parser `uaParser`. -/
def parseUserAgent (uaParser : Option Str → UAResult) (req : Req) : ParsedUA :=
  let result := uaParser req.userAgent
  { browser := jsTrim (jsOrD result.browserName "Unknown".toList ++ " ".toList ++
      jsOrD result.browserVersion [])
    os := jsTrim (jsOrD result.osName "Unknown".toList ++ " ".toList ++
      jsOrD result.osVersion [])
    device := jsOrD result.deviceType "desktop".toList }

/-- The function `trackHit(type, slug, req)`: builds the record, pushes it on
`hits` and returns it.  `now` is `new Date().toISOString()`.  The result is the
returned record and the Hit Log after the push. -/
def trackHit (uaParser : Option Str → UAResult) (now : Str) (type slug : Str) (req : Req)
    (hits : List Hit) : Hit × List Hit :=
  let ip := getClientIP req
  let ua := parseUserAgent uaParser req
  let hit : Hit :=
    { type := type
      slug := slug
      ip := ip
      timestamp := now
      userAgent := jsOrD req.userAgent "Unknown".toList
      browser := ua.browser
      os := ua.os
      device := ua.device
      referer := jsOrD (jsOr req.referer req.referrer) "Direct".toList
      acceptLanguage := jsOrD req.acceptLanguage "Unknown".toList }
  (hit, hits ++ [hit])

/-! ## Keyed collections

`links` is a `Map` and the counters of the stats handler are object
literals.  Both are modelled as association lists in insertion order with at
most one entry per key. -/

/-- Lookup of a key: `map.get(k)`, or the own property `obj[k]`. -/
def assocGet {β : Type} (m : List (Str × β)) (k : Str) : Option β :=
  (m.find? fun e => e.1 == k).map Prod.snd

/-- The test `map.has(k)`. -/
def assocHas {β : Type} (m : List (Str × β)) (k : Str) : Bool :=
  m.any fun e => e.1 == k

/-- The update `map.set(k, v)`, or `obj[k] = v`: an existing key keeps its
place and takes the new value, a new key goes last. -/
def assocSet {β : Type} : List (Str × β) → Str → β → List (Str × β)
  | [], k, v => [(k, v)]
  | e :: m, k, v => if e.1 == k then (k, v) :: m else e :: assocSet m k v

/-- The removal `map.delete(k)`. -/
def assocDelete {β : Type} (m : List (Str × β)) (k : Str) : List (Str × β) :=
  m.filter fun e => !(e.1 == k)

/-- The two in-memory stores of the service. -/
structure Store where
  links : List (Str × Str)
  hits : List Hit

/-! ## Responses -/

/-- A value held by a counter object of the stats handler: a number, or the
string that `+ 1` produces when the value read was not a number (its text
depends on the engine and is not modelled). -/
inductive CountVal where
  | num (n : Nat)
  | text
  deriving DecidableEq, Repr

/-- The object sent by the stats handler. -/
structure Stats where
  total : Nat
  byType : List (Str × CountVal)
  bySlug : List (Str × CountVal)
  byIP : List (Str × CountVal)
  byBrowser : List (Str × CountVal)
  byOS : List (Str × CountVal)
  byDevice : List (Str × CountVal)
  recent : List Hit

/-- What a route handler sends back. -/
inductive Response where
  | text (status : Nat) (body : Str)
  | redirect (status : Nat) (location : Str)
  | pixel
  | error (status : Nat) (error : Str)
  | linkAdded (slug destination : Str)
  | linkRemoved (slug : Str)
  | stats (s : Stats)
  | csv (body : Str)

/-! ## Redirect and link administration -/

/-- The handler of `GET /l/:slug`. -/
def redirectHandler (uaParser : Option Str → UAResult) (now : Str) (slug : Str) (req : Req)
    (st : Store) : Response × Store :=
  let destination := assocGet st.links slug
  if !truthy destination then
    (.text 404 "Link not found".toList, st)
  else
    let tracked := trackHit uaParser now "redirect".toList slug req st.hits
    (.redirect 302 (destination.getD []), { st with hits := tracked.2 })

/-- The handler of `GET /p/:slug`: tracks a pixel hit for any slug and sends the
fixed 1x1 PNG. -/
def pixelHandler (uaParser : Option Str → UAResult) (now : Str) (slug : Str) (req : Req)
    (st : Store) : Response × Store :=
  let tracked := trackHit uaParser now "pixel".toList slug req st.hits
  (.pixel, { st with hits := tracked.2 })

/-- The JSON body of `POST /admin/links`: the two properties the handler
destructures, each possibly missing. -/
structure LinkBody where
  slug : Option Str
  destination : Option Str

/-- The handler of `POST /admin/links`, after `authAdmin` called `next()`. -/
def addLinkHandler (body : LinkBody) (st : Store) : Response × Store :=
  if !truthy body.slug || !truthy body.destination then
    (.error 400 "slug and destination are required".toList, st)
  else
    let slug := body.slug.getD []
    let destination := body.destination.getD []
    (.linkAdded slug destination, { st with links := assocSet st.links slug destination })

/-- The handler of `DELETE /admin/links/:slug`, after `authAdmin` called `next()`. -/
def deleteLinkHandler (slug : Str) (st : Store) : Response × Store :=
  if !assocHas st.links slug then
    (.error 404 "Link not found".toList, st)
  else
    (.linkRemoved slug, { st with links := assocDelete st.links slug })

/-! ## Statistics -/

/-- The query string of the stats and export routes: `req.query.slug` and
`req.query.type`, each possibly missing. -/
structure Query where
  slug : Option Str
  type : Option Str

/-- One filtering step, `if (v) filteredHits = filteredHits.filter(h => h.f === v)`. -/
def filterBy (field : Hit → Str) (value : Option Str) (hits : List Hit) : List Hit :=
  if truthy value then hits.filter fun h => some (field h) == value else hits

/-- The filtered view both admin read routes start from: the slug filter, then
the type filter. -/
def filterHits (q : Query) (hits : List Hit) : List Hit :=
  filterBy Hit.type q.type (filterBy Hit.slug q.slug hits)

/-- Names of the properties an object literal inherits from `Object.prototype`;
reading one of them on `{}` gives a function or an object, not `undefined`. -/
def objectPrototypeKeys : List Str :=
  ["constructor".toList, "__defineGetter__".toList, "__defineSetter__".toList,
   "hasOwnProperty".toList, "__lookupGetter__".toList, "__lookupSetter__".toList,
   "isPrototypeOf".toList, "propertyIsEnumerable".toList, "toString".toList,
   "valueOf".toList, "__proto__".toList, "toLocaleString".toList]

/-- The statement `obj[k] = (obj[k] || 0) + 1` on a counter that started as `{}`.
An own numeric property is incremented and a missing one becomes 1.  A key that
is found on `Object.prototype` reads as a truthy non-number, so `+ 1` makes a
string, which stays a string afterwards; assigning a string to `__proto__`
stores nothing. -/
def bumpCount (obj : List (Str × CountVal)) (k : Str) : List (Str × CountVal) :=
  match assocGet obj k with
  | some (.num n) => assocSet obj k (.num (n + 1))
  | some .text => assocSet obj k .text
  | none =>
    if objectPrototypeKeys.contains k then
      if k == "__proto__".toList then obj else assocSet obj k .text
    else
      assocSet obj k (.num 1)

/-- The conversion `String(v)` of a possibly-undefined string, which is also how
a value is turned into a property key. -/
def jsString : Option Str → Str
  | none => "undefined".toList
  | some s => s

/-- The body of the `forEach` callback of the stats handler. -/
def countHit (stats : Stats) (hit : Hit) : Stats :=
  { stats with
    byType := bumpCount stats.byType hit.type
    bySlug := bumpCount stats.bySlug hit.slug
    byIP := bumpCount stats.byIP (jsString hit.ip)
    byBrowser := bumpCount stats.byBrowser hit.browser
    byOS := bumpCount stats.byOS hit.os
    byDevice := bumpCount stats.byDevice hit.device }

/-- The expression `filteredHits.slice(-100).reverse()`: a reversed copy of the
last 100 elements. -/
def recentHits (filteredHits : List Hit) : List Hit :=
  (filteredHits.drop (filteredHits.length - 100)).reverse

/-- The `stats` object the stats handler builds from the filtered view. -/
def aggregate (filteredHits : List Hit) : Stats :=
  let stats : Stats :=
    { total := filteredHits.length
      byType := []
      bySlug := []
      byIP := []
      byBrowser := []
      byOS := []
      byDevice := []
      recent := recentHits filteredHits }
  filteredHits.foldl countHit stats

/-- The handler of `GET /admin/stats`, after `authAdmin` called `next()`. -/
def statsHandler (q : Query) (st : Store) : Response × Store :=
  (.stats (aggregate (filterHits q st.hits)), st)

/-- The numeric value of a counter entry; a string entry counts for nothing. -/
def CountVal.toNat : CountVal → Nat
  | .num n => n
  | .text => 0

/-- The sum of the counts held by a counter object. -/
def countSum (obj : List (Str × CountVal)) : Nat :=
  (obj.map fun e => e.2.toNat).sum

/-! ## CSV export -/

/-- The header row of the export. -/
def csvHeaders : List Str :=
  ["Type".toList, "Slug".toList, "IP".toList, "Timestamp".toList, "Browser".toList,
   "OS".toList, "Device".toList, "Referer".toList, "Language".toList]

/-- The row of cells the export builds from one hit. -/
def hitCells (h : Hit) : List Str :=
  [h.type, h.slug, jsString h.ip, h.timestamp, h.browser, h.os, h.device, h.referer,
   h.acceptLanguage]

/-- The replacement `cell.replace(/"/g, '""')`. -/
def escapeQuotes (cell : Str) : Str :=
  cell.flatMap fun c => if c == '"' then ['"', '"'] else [c]

/-- The rendering of one cell, a double quote, the escaped text and a double
quote. -/
def csvCell (cell : Str) : Str :=
  '"' :: escapeQuotes cell ++ ['"']

/-- The rendering of one row, `row.map(cell => ...).join(',')`. -/
def csvLine (row : List Str) : Str :=
  [','].intercalate (row.map csvCell)

/-- The CSV text of the export: header and hit rows rendered and joined by
`'\n'`. -/
def csvText (filteredHits : List Hit) : Str :=
  ['\n'].intercalate ((csvHeaders :: filteredHits.map hitCells).map csvLine)

/-- The handler of `GET /admin/export/csv`, after `authAdmin` called `next()`. -/
def exportCsvHandler (q : Query) (st : Store) : Response × Store :=
  (.csv (csvText (filterHits q st.hits)), st)

/-- Reading a rendered cell back: drop the first and last character, then scan
left to right turning each pair of double quotes into one. -/
def unescapeQuotes : Str → Str
  | '"' :: '"' :: rest => '"' :: unescapeQuotes rest
  | c :: rest => c :: unescapeQuotes rest
  | [] => []

/-- The inverse reading of `csvCell`: strip the outer quotes and undouble. -/
def readCell (field : Str) : Str :=
  unescapeQuotes (field.tail.dropLast)

/-- The allowlist test of `authAdmin`, as a proposition. -/
def IpAllowed (allowed : List Str) (req : Req) : Prop :=
  (∃ ip, getClientIP req = some ip ∧ ip ∈ allowed) ∨ "*".toList ∈ allowed

/-! ## Sample requests -/

/-- A request with no header and no peer address; the samples below fill in
fields. -/
def emptyReq : Req :=
  { xForwardedFor := none, xRealIp := none, userAgent := none, referer := none,
    referrer := none, acceptLanguage := none, authorization := none,
    connectionRemoteAddress := none, socketRemoteAddress := none, ip := none }

/-- A request that reaches the server directly from peer `203.0.113.9` with the
right bearer token. -/
def directReq : Req :=
  { emptyReq with
    authorization := some "Bearer changeme".toList
    connectionRemoteAddress := some "203.0.113.9".toList
    socketRemoteAddress := some "203.0.113.9".toList
    ip := some "203.0.113.9".toList }

/-- The same request with the header `x-forwarded-for: 127.0.0.1` added by the
sender. -/
def spoofedReq : Req :=
  { directReq with xForwardedFor := some "127.0.0.1".toList }

/-- A request whose `x-forwarded-for` header is present with an empty first
entry, next to an `x-real-ip` header. -/
def emptyFirstEntryReq : Req :=
  { directReq with
    xForwardedFor := some ", 10.0.0.1".toList
    xRealIp := some "198.51.100.7".toList }

/-- A request relayed by a proxy that lists the client first. -/
def proxiedReq : Req :=
  { directReq with xForwardedFor := some " 192.0.2.44 , 10.0.0.1".toList }

/-! ## Sample stores -/

/-- A user-agent parser that recognises nothing. -/
def blankUaParser : Option Str → UAResult :=
  fun _ => { browserName := none, browserVersion := none, osName := none, osVersion := none,
             deviceType := none }

/-- A store with one link, `abc`, and an empty Hit Log. -/
def sampleStore : Store :=
  { links := [("abc".toList, "https://old.example".toList)], hits := [] }

/-! ## Query filters, as the specification words them -/

/-- Whether a filter value selects a hit whose filtered field is `field`: a
missing or empty value selects every hit, any other value the hits whose field
equals it. -/
def selects (value : Option Str) (field : Str) : Bool :=
  match value with
  | none => true
  | some v => v.isEmpty || field == v

/-- Whether a hit matches both filters of a query. -/
def matchesQuery (q : Query) (h : Hit) : Bool :=
  selects q.slug h.slug && selects q.type h.type

/-- A Hit Log with two redirect hits for `abc` and one pixel hit for `xyz`. -/
def sampleHits : List Hit :=
  ((trackHit blankUaParser "2024-01-01T00:00:02.000Z".toList "redirect".toList "abc".toList
      proxiedReq
    (trackHit blankUaParser "2024-01-01T00:00:01.000Z".toList "pixel".toList "xyz".toList
      directReq
    (trackHit blankUaParser "2024-01-01T00:00:00.000Z".toList "redirect".toList "abc".toList
      directReq []).2).2).2)

/-- The store after the request `GET /p/a%0Ab` on an empty store: the Hit Log
holds one pixel hit whose slug has a line break in it. -/
def lineBreakStore : Store :=
  (pixelHandler blankUaParser "2024-01-01T00:00:00.000Z".toList ['a', '\n', 'b'] directReq
    { links := [], hits := [] }).2

/-! ## Properties of authentication -/

theorem includesIP_iff (allowed : List Str) (ip : Option Str) :
    includesIP allowed ip = true ↔ ∃ s, ip = some s ∧ s ∈ allowed := by
  cases ip <;> simp [includesIP]

theorem bearer_iff (auth password : Str) :
    (startsWithBearer auth = true ∧ auth.drop 7 = password) ↔
      auth = "Bearer ".toList ++ password := by
  constructor
  · rintro ⟨hp, hd⟩
    obtain ⟨t, rfl⟩ := List.isPrefixOf_iff_prefix.mp hp
    rw [← hd]
    rfl
  · rintro rfl
    exact ⟨List.isPrefixOf_iff_prefix.mpr ⟨password, rfl⟩, rfl⟩

theorem ipGate_eq_true_iff (allowed : List Str) (req : Req) :
    (!includesIP allowed (getClientIP req) && !allowed.contains "*".toList) = true ↔
      ¬ IpAllowed allowed req := by
  unfold IpAllowed
  have hc : allowed.contains "*".toList = true ↔ "*".toList ∈ allowed := List.elem_iff
  rw [← includesIP_iff, ← hc]
  cases includesIP allowed (getClientIP req) <;> cases allowed.contains "*".toList <;> decide

theorem authAdmin_ip_rejected (allowed : List Str) (password : Str) (req : Req)
    (h : ¬ IpAllowed allowed req) :
    authAdmin allowed password req = .reject 403 "IP not allowed".toList := by
  unfold authAdmin
  rw [if_pos ((ipGate_eq_true_iff allowed req).mpr h)]

theorem authAdmin_ip_allowed (allowed : List Str) (password : Str) (req : Req)
    (h : IpAllowed allowed req) :
    (req.authorization = some ("Bearer ".toList ++ password) →
      authAdmin allowed password req = .next) ∧
    (req.authorization ≠ some ("Bearer ".toList ++ password) →
      ∃ e, authAdmin allowed password req = .reject 401 e) := by
  unfold authAdmin
  rw [if_neg (fun hg => (ipGate_eq_true_iff allowed req).mp hg h)]
  constructor
  · intro ha
    obtain ⟨hb, hd⟩ := (bearer_iff _ password).mpr rfl
    rw [ha]
    have he : ("Bearer ".toList ++ password).isEmpty = false := rfl
    simp only [hb, hd, he]
    rw [if_neg (by decide), if_neg (fun h => h rfl)]
  · intro ha
    cases hauth : req.authorization with
    | none => exact ⟨_, rfl⟩
    | some auth =>
      simp only
      split
      · exact ⟨_, rfl⟩
      · split
        · exact ⟨_, rfl⟩
        · rename_i h1 h2
          exfalso
          apply ha
          rw [hauth]
          congr 1
          apply (bearer_iff auth password).mp
          simp only [Bool.or_eq_true, Bool.not_eq_true', not_or, Bool.not_eq_false] at h1
          exact ⟨h1.2, not_not.mp h2⟩

/-- C1: `authAdmin` calls `next()` exactly when the derived client IP is on the
allowlist (or the allowlist holds `'*'`) and the Authorization header is
`'Bearer '` followed by the configured password; it answers 403 exactly when
the IP test fails, whatever the header, and 401 exactly when the IP test
passes and the header is anything else (missing, not a bearer header, or
another password). -/
theorem authAdmin_contract (allowed : List Str) (password : Str) (req : Req) :
    (authAdmin allowed password req = .next ↔
      ((∃ ip, getClientIP req = some ip ∧ ip ∈ allowed) ∨ "*".toList ∈ allowed) ∧
        req.authorization = some ("Bearer ".toList ++ password)) ∧
    ((∃ e, authAdmin allowed password req = .reject 403 e) ↔
      ¬((∃ ip, getClientIP req = some ip ∧ ip ∈ allowed) ∨ "*".toList ∈ allowed)) ∧
    ((∃ e, authAdmin allowed password req = .reject 401 e) ↔
      ((∃ ip, getClientIP req = some ip ∧ ip ∈ allowed) ∨ "*".toList ∈ allowed) ∧
        req.authorization ≠ some ("Bearer ".toList ++ password)) := by
  change (_ ↔ IpAllowed allowed req ∧ _) ∧ (_ ↔ ¬ IpAllowed allowed req) ∧
    (_ ↔ IpAllowed allowed req ∧ _)
  by_cases hip : IpAllowed allowed req
  · obtain ⟨hnext, hrej⟩ := authAdmin_ip_allowed allowed password req hip
    by_cases ha : req.authorization = some ("Bearer ".toList ++ password)
    · have hn := hnext ha
      rw [hn]
      refine ⟨⟨fun _ => ⟨hip, ha⟩, fun _ => rfl⟩, ⟨?_, fun h => absurd hip h⟩, ⟨?_, fun h => absurd ha h.2⟩⟩
      · rintro ⟨e, he⟩; cases he
      · rintro ⟨e, he⟩; cases he
    · obtain ⟨e, he⟩ := hrej ha
      rw [he]
      refine ⟨⟨?_, fun h => absurd h.2 ha⟩, ⟨?_, fun h => absurd hip h⟩, ⟨fun _ => ⟨hip, ha⟩, fun _ => ⟨e, rfl⟩⟩⟩
      · intro h; cases h
      · rintro ⟨e', he'⟩; cases he'
  · rw [authAdmin_ip_rejected allowed password req hip]
    refine ⟨⟨?_, fun h => absurd h.1 hip⟩, ⟨fun _ => hip, fun _ => ⟨_, rfl⟩⟩, ⟨?_, fun h => absurd h.1 hip⟩⟩
    · intro h; cases h
    · rintro ⟨e', he'⟩; cases he'

/-- C2, as stated, fails: a request from a peer address that is not on the
allowlist (and no `'*'` on it) is let through when it names an allow-listed
address in `x-forwarded-for` and carries the right password. -/
theorem authAdmin_peer_address_not_decisive :
    ¬ ∀ (allowed : List Str) (password : Str) (req : Req) (peer : Str),
        req.connectionRemoteAddress = some peer → peer ∉ allowed → "*".toList ∉ allowed →
        ∃ e, authAdmin allowed password req = .reject 403 e := by
  intro h
  obtain ⟨e, he⟩ := h ["127.0.0.1".toList] "changeme".toList spoofedReq "203.0.113.9".toList
    rfl (by decide) (by decide)
  have hnext : authAdmin ["127.0.0.1".toList] "changeme".toList spoofedReq = .next := by decide
  rw [hnext] at he
  cases he

/-- C2, amended: when the allowlist has no `'*'` and the derived client IP
(`getClientIP`) is not on it, `authAdmin` answers 403 `IP not allowed` and does
not call `next()`, whatever the password and the Authorization header. -/
theorem authAdmin_rejects_unlisted_client_ip (allowed : List Str) (password : Str) (req : Req)
    (hstar : "*".toList ∉ allowed)
    (hip : ∀ ip, getClientIP req = some ip → ip ∉ allowed) :
    authAdmin allowed password req = .reject 403 "IP not allowed".toList ∧
      authAdmin allowed password req ≠ .next := by
  have hno : ¬ IpAllowed allowed req := by
    rintro (⟨ip, hget, hmem⟩ | hmem)
    · exact hip ip hget hmem
    · exact hstar hmem
  rw [authAdmin_ip_rejected allowed password req hno]
  exact ⟨rfl, fun h => by cases h⟩

/-- Witness of C2: a direct request from a peer that is not on the allowlist. -/
theorem authAdmin_rejects_unlisted_client_ip_witness :
    authAdmin ["127.0.0.1".toList] "changeme".toList directReq =
        .reject 403 "IP not allowed".toList ∧
      authAdmin ["127.0.0.1".toList] "changeme".toList directReq ≠ .next :=
  authAdmin_rejects_unlisted_client_ip ["127.0.0.1".toList] "changeme".toList directReq
    (by decide) (by
      intro ip hget
      have hval : getClientIP directReq = some "203.0.113.9".toList := by decide
      rw [hval] at hget
      cases hget
      decide)

/-! ## Properties of the client address -/

theorem jsOr_of_truthy (a b : Option Str) (h : truthy a = true) : jsOr a b = a := by
  simp [jsOr, h]

theorem jsOr_of_falsy (a b : Option Str) (h : truthy a = false) : jsOr a b = b := by
  simp [jsOr, h]

theorem truthy_some_iff (s : Str) : truthy (some s) = true ↔ s ≠ [] := by
  cases s <;> simp [truthy]

/-- C9, as stated, fails: with the header `x-forwarded-for` present, the derived
address is not always its trimmed first entry.  When that entry is empty the
`x-real-ip` header is used. -/
theorem getClientIP_forwarded_present_not_used :
    ¬ ∀ (req : Req) (h : Str), req.xForwardedFor = some h →
        getClientIP req = some (jsTrim (firstCommaEntry h)) := by
  intro hall
  have h := hall emptyFirstEntryReq ", 10.0.0.1".toList rfl
  have hval : getClientIP emptyFirstEntryReq = some "198.51.100.7".toList := by decide
  rw [hval] at h
  revert h
  decide

/-- C9, amended: `getClientIP` is the trimmed first comma-separated entry of
`x-forwarded-for` when the header is present and that entry is not empty;
failing that, the `x-real-ip` header when it is present and not empty; failing
that, the peer address, read from `req.connection.remoteAddress`, else from
`req.socket.remoteAddress`, each used when defined and not empty, else from
`req.ip` as it is.  The `ip` field of a tracked hit is the value of
`getClientIP`. -/
theorem getClientIP_priority (req : Req) :
    (∀ h, req.xForwardedFor = some h → jsTrim (firstCommaEntry h) ≠ [] →
      getClientIP req = some (jsTrim (firstCommaEntry h))) ∧
    ((∀ h, req.xForwardedFor = some h → jsTrim (firstCommaEntry h) = []) →
      ∀ r, req.xRealIp = some r → r ≠ [] → getClientIP req = some r) ∧
    ((∀ h, req.xForwardedFor = some h → jsTrim (firstCommaEntry h) = []) →
      (∀ r, req.xRealIp = some r → r = []) →
      ∀ a, req.connectionRemoteAddress = some a → a ≠ [] → getClientIP req = some a) ∧
    ((∀ h, req.xForwardedFor = some h → jsTrim (firstCommaEntry h) = []) →
      (∀ r, req.xRealIp = some r → r = []) →
      (∀ a, req.connectionRemoteAddress = some a → a = []) →
      (∀ a, req.socketRemoteAddress = some a → a ≠ [] → getClientIP req = some a) ∧
      ((∀ a, req.socketRemoteAddress = some a → a = []) → getClientIP req = req.ip)) ∧
    (∀ uaParser now type slug hits,
      (trackHit uaParser now type slug req hits).1.ip = getClientIP req) := by
  have hfwd : (∀ h, req.xForwardedFor = some h → jsTrim (firstCommaEntry h) = []) →
      truthy (req.xForwardedFor.map fun h => jsTrim (firstCommaEntry h)) = false := by
    intro hno
    cases hx : req.xForwardedFor with
    | none => rfl
    | some h => simp [truthy, hno h hx]
  have hfalsy : ∀ v : Option Str, (∀ r, v = some r → r = []) → truthy v = false := by
    intro v hno
    cases v with
    | none => rfl
    | some r => simp [truthy, hno r rfl]
  refine ⟨?_, ?_, ?_, ?_, ?_⟩
  · intro h hx hne
    unfold getClientIP
    rw [hx, Option.map_some', jsOr_of_truthy _ _ ((truthy_some_iff _).mpr hne)]
  · intro hno r hx hne
    unfold getClientIP
    rw [jsOr_of_falsy _ _ (hfwd hno), hx, jsOr_of_truthy _ _ ((truthy_some_iff _).mpr hne)]
  · intro hno hnr a hx hne
    unfold getClientIP
    rw [jsOr_of_falsy _ _ (hfwd hno), jsOr_of_falsy _ _ (hfalsy _ hnr), hx,
      jsOr_of_truthy _ _ ((truthy_some_iff _).mpr hne)]
  · intro hno hnr hnc
    constructor
    · intro a hx hne
      unfold getClientIP
      rw [jsOr_of_falsy _ _ (hfwd hno), jsOr_of_falsy _ _ (hfalsy _ hnr),
        jsOr_of_falsy _ _ (hfalsy _ hnc), hx, jsOr_of_truthy _ _ ((truthy_some_iff _).mpr hne)]
    · intro hns
      unfold getClientIP
      rw [jsOr_of_falsy _ _ (hfwd hno), jsOr_of_falsy _ _ (hfalsy _ hnr),
        jsOr_of_falsy _ _ (hfalsy _ hnc), jsOr_of_falsy _ _ (hfalsy _ hns)]
  · intro uaParser now type slug hits
    rfl

/-- Witness of C9: a proxied request yields the first forwarded entry, a direct
one the peer address. -/
theorem getClientIP_priority_witness :
    getClientIP proxiedReq = some "192.0.2.44".toList ∧
      getClientIP directReq = some "203.0.113.9".toList :=
  ⟨(getClientIP_priority proxiedReq).1 " 192.0.2.44 , 10.0.0.1".toList rfl (by decide),
   (getClientIP_priority directReq).2.2.1 (fun h hx => by cases hx) (fun r hx => by cases hx)
    "203.0.113.9".toList rfl (by decide)⟩

/-! ## Properties of hit tracking -/

/-- C5: `trackHit` pushes exactly one record.  The Hit Log afterwards is the old
log followed by the returned record, so the old records keep their content and
order, the length grows by 1, the last record is the returned one, and its
`type` and `slug` are the arguments. -/
theorem trackHit_appends_one (uaParser : Option Str → UAResult) (now type slug : Str)
    (req : Req) (hits : List Hit) :
    (trackHit uaParser now type slug req hits).2 =
        hits ++ [(trackHit uaParser now type slug req hits).1] ∧
      (trackHit uaParser now type slug req hits).2.take hits.length = hits ∧
      (trackHit uaParser now type slug req hits).2.length = hits.length + 1 ∧
      (trackHit uaParser now type slug req hits).2.getLast? =
        some (trackHit uaParser now type slug req hits).1 ∧
      (trackHit uaParser now type slug req hits).1.type = type ∧
      (trackHit uaParser now type slug req hits).1.slug = slug := by
  refine ⟨rfl, ?_, ?_, ?_, rfl, rfl⟩
  · simp [trackHit]
  · simp [trackHit]
  · simp [trackHit]

/-! ## Properties of the Link Store -/

theorem assocGet_eq_none_of_not_has {β : Type} (m : List (Str × β)) (k : Str)
    (h : assocHas m k = false) : assocGet m k = none := by
  unfold assocGet
  rw [Option.map_eq_none', List.find?_eq_none]
  intro e he hk
  have : assocHas m k = true := List.any_eq_true.mpr ⟨e, he, hk⟩
  rw [h] at this
  cases this

theorem assocGet_cons {β : Type} (e : Str × β) (m : List (Str × β)) (k : Str) :
    assocGet (e :: m) k = if e.1 == k then some e.2 else assocGet m k := by
  unfold assocGet
  rw [List.find?_cons]
  cases e.1 == k <;> rfl

theorem assocGet_assocSet_self {β : Type} (m : List (Str × β)) (k : Str) (v : β) :
    assocGet (assocSet m k v) k = some v := by
  induction m with
  | nil =>
    rw [assocSet, assocGet_cons, if_pos (beq_self_eq_true k)]
  | cons e m ih =>
    rw [assocSet]
    by_cases hk : (e.1 == k) = true
    · rw [if_pos hk, assocGet_cons, if_pos (beq_self_eq_true k)]
    · rw [if_neg hk, assocGet_cons, if_neg hk, ih]

theorem assocGet_assocDelete_self {β : Type} (m : List (Str × β)) (k : Str) :
    assocGet (assocDelete m k) k = none := by
  unfold assocGet assocDelete
  rw [Option.map_eq_none', List.find?_eq_none]
  intro e he hk
  have := (List.mem_filter.mp he).2
  simp [hk] at this

theorem mem_assocSet {β : Type} (m : List (Str × β)) (k : Str) (v : β) (e : Str × β)
    (he : e ∈ assocSet m k v) : e ∈ m ∨ e = (k, v) := by
  induction m with
  | nil =>
    rw [assocSet, List.mem_singleton] at he
    exact Or.inr he
  | cons a m ih =>
    rw [assocSet] at he
    by_cases hk : (a.1 == k) = true
    · rw [if_pos hk, List.mem_cons] at he
      rcases he with he | he
      · exact Or.inr he
      · exact Or.inl (List.mem_cons_of_mem _ he)
    · rw [if_neg hk, List.mem_cons] at he
      rcases he with he | he
      · exact Or.inl (he ▸ List.mem_cons_self _ _)
      · rcases ih he with h | h
        · exact Or.inl (List.mem_cons_of_mem _ h)
        · exact Or.inr h

/-- Keys stay unique under `assocSet`, as they do in a `Map`. -/
theorem assocSet_keys_nodup {β : Type} (m : List (Str × β)) (k : Str) (v : β)
    (h : (m.map Prod.fst).Nodup) : ((assocSet m k v).map Prod.fst).Nodup := by
  induction m with
  | nil => simp [assocSet]
  | cons e m ih =>
    rw [List.map_cons, List.nodup_cons] at h
    rw [assocSet]
    by_cases hk : (e.1 == k) = true
    · rw [if_pos hk, List.map_cons, List.nodup_cons]
      have hek : e.1 = k := by simpa using hk
      exact ⟨hek ▸ h.1, h.2⟩
    · rw [if_neg hk, List.map_cons, List.nodup_cons]
      refine ⟨?_, ih h.2⟩
      intro hmem
      obtain ⟨x, hx, hxe⟩ := List.mem_map.mp hmem
      rcases mem_assocSet m k v x hx with hx | hx
      · exact h.1 (hxe ▸ List.mem_map_of_mem _ hx)
      · rw [hx] at hxe
        exact hk (by simp [← hxe])

/-- Keys stay unique under `assocDelete`. -/
theorem assocDelete_keys_nodup {β : Type} (m : List (Str × β)) (k : Str)
    (h : (m.map Prod.fst).Nodup) : ((assocDelete m k).map Prod.fst).Nodup :=
  h.sublist ((List.filter_sublist m).map Prod.fst)

theorem redirectHandler_of_absent (uaParser : Option Str → UAResult) (now slug : Str) (req : Req)
    (st : Store) (h : assocGet st.links slug = none) :
    redirectHandler uaParser now slug req st = (.text 404 "Link not found".toList, st) := by
  unfold redirectHandler
  simp only [h, truthy]
  rfl

/-- C3: after the add-link handler ran with a non-empty slug and a non-empty
destination, the Link Store maps the slug to that destination, whatever it
held before, and the Hit Log is as it was; a following `GET /l/<slug>` answers
302 to that destination and leaves the Hit Log one record longer, the new
record being a `redirect` hit for the slug. -/
theorem addLink_then_redirect (uaParser : Option Str → UAResult) (now slug destination : Str)
    (req : Req) (st : Store) (hslug : slug ≠ []) (hdest : destination ≠ []) :
    (addLinkHandler ⟨some slug, some destination⟩ st).1 = .linkAdded slug destination ∧
    assocGet (addLinkHandler ⟨some slug, some destination⟩ st).2.links slug = some destination ∧
    (addLinkHandler ⟨some slug, some destination⟩ st).2.hits = st.hits ∧
    (redirectHandler uaParser now slug req
        (addLinkHandler ⟨some slug, some destination⟩ st).2).1 = .redirect 302 destination ∧
    ∃ hit : Hit, hit.type = "redirect".toList ∧ hit.slug = slug ∧
      (redirectHandler uaParser now slug req
        (addLinkHandler ⟨some slug, some destination⟩ st).2).2.hits = st.hits ++ [hit] := by
  have hs : truthy (some slug) = true := (truthy_some_iff slug).mpr hslug
  have hd : truthy (some destination) = true := (truthy_some_iff destination).mpr hdest
  have hadd : addLinkHandler ⟨some slug, some destination⟩ st =
      (.linkAdded slug destination, { st with links := assocSet st.links slug destination }) := by
    simp [addLinkHandler, hs, hd]
  rw [hadd]
  have hget := assocGet_assocSet_self st.links slug destination
  refine ⟨rfl, hget, rfl, ?_, ?_⟩
  · simp [redirectHandler, hget, hd]
  · refine ⟨(trackHit uaParser now "redirect".toList slug req st.hits).1, rfl, rfl, ?_⟩
    simp [redirectHandler, hget, hd, trackHit]

/-- Witness of C3: the slug `abc` is remapped and then followed. -/
theorem addLink_then_redirect_witness :
    assocGet (addLinkHandler ⟨some "abc".toList, some "https://example.com".toList⟩
        sampleStore).2.links "abc".toList = some "https://example.com".toList ∧
      (redirectHandler blankUaParser "2024-01-01T00:00:00.000Z".toList "abc".toList directReq
        (addLinkHandler ⟨some "abc".toList, some "https://example.com".toList⟩
          sampleStore).2).1 = .redirect 302 "https://example.com".toList :=
  have h := addLink_then_redirect blankUaParser "2024-01-01T00:00:00.000Z".toList "abc".toList
    "https://example.com".toList directReq sampleStore (by decide) (by decide)
  ⟨h.2.1, h.2.2.2.1⟩

/-- C4: after the delete-link handler ran for a slug, with either answer, the
Link Store has no entry for the slug and a following `GET /l/<slug>` answers
404 without touching the stores; when the slug was not in the Link Store the
handler answers 404 and the store is unchanged, and otherwise it answers
success. -/
theorem deleteLink_then_absent (uaParser : Option Str → UAResult) (now slug : Str) (req : Req)
    (st : Store) :
    assocGet (deleteLinkHandler slug st).2.links slug = none ∧
    redirectHandler uaParser now slug req (deleteLinkHandler slug st).2 =
      (.text 404 "Link not found".toList, (deleteLinkHandler slug st).2) ∧
    (assocHas st.links slug = false →
      deleteLinkHandler slug st = (.error 404 "Link not found".toList, st)) ∧
    (assocHas st.links slug = true →
      (deleteLinkHandler slug st).1 = .linkRemoved slug ∧
        (deleteLinkHandler slug st).2.hits = st.hits) := by
  have habsent : assocGet (deleteLinkHandler slug st).2.links slug = none := by
    unfold deleteLinkHandler
    by_cases h : assocHas st.links slug = true
    · simp only [h, Bool.not_true, Bool.false_eq_true, if_false]
      exact assocGet_assocDelete_self st.links slug
    · have hf : assocHas st.links slug = false := by simpa using h
      simp only [hf, Bool.not_false, if_true]
      exact assocGet_eq_none_of_not_has st.links slug hf
  refine ⟨habsent, redirectHandler_of_absent uaParser now slug req _ habsent, ?_, ?_⟩
  · intro h
    simp [deleteLinkHandler, h]
  · intro h
    simp [deleteLinkHandler, h]

/-- Witness of C4: deleting `abc`, which is stored, and `zzz`, which is not. -/
theorem deleteLink_then_absent_witness :
    deleteLinkHandler "zzz".toList sampleStore =
        (.error 404 "Link not found".toList, sampleStore) ∧
      (deleteLinkHandler "abc".toList sampleStore).1 = .linkRemoved "abc".toList :=
  ⟨(deleteLink_then_absent blankUaParser [] "zzz".toList directReq sampleStore).2.2.1
      (by decide),
   ((deleteLink_then_absent blankUaParser [] "abc".toList directReq sampleStore).2.2.2
      (by decide)).1⟩

/-! ## Properties of the statistics -/

theorem foldl_countHit_total (hits : List Hit) (s : Stats) :
    (hits.foldl countHit s).total = s.total := by
  induction hits generalizing s with
  | nil => rfl
  | cons h hits ih => rw [List.foldl_cons, ih]; rfl

theorem foldl_countHit_recent (hits : List Hit) (s : Stats) :
    (hits.foldl countHit s).recent = s.recent := by
  induction hits generalizing s with
  | nil => rfl
  | cons h hits ih => rw [List.foldl_cons, ih]; rfl

theorem foldl_countHit_byType (hits : List Hit) (s : Stats) :
    (hits.foldl countHit s).byType = hits.foldl (fun obj h => bumpCount obj h.type) s.byType := by
  induction hits generalizing s with
  | nil => rfl
  | cons h hits ih => rw [List.foldl_cons, ih]; rfl

theorem recentHits_length (l : List Hit) : (recentHits l).length = min 100 l.length := by
  unfold recentHits
  rw [List.length_reverse, List.length_drop]
  omega

theorem recentHits_eq_take_reverse (l : List Hit) :
    recentHits l = l.reverse.take (min 100 l.length) := by
  unfold recentHits
  rw [List.take_reverse]
  congr 2
  omega

/-- C10: the `recent` field of the stats result has length `min(100, total)`; it
is the filtered view read from its newest end and cut after `min(100, total)`
records, that is, the last `min(100, total)` records of the filtered view in
reverse order.  The handler leaves both stores as they were. -/
theorem stats_recent (q : Query) (st : Store) :
    (statsHandler q st).2 = st ∧
    ∃ s, (statsHandler q st).1 = .stats s ∧
      s.total = (filterHits q st.hits).length ∧
      s.recent.length = min 100 s.total ∧
      s.recent = (filterHits q st.hits).reverse.take (min 100 s.total) ∧
      s.recent.reverse =
        (filterHits q st.hits).drop ((filterHits q st.hits).length - min 100 s.total) := by
  refine ⟨rfl, aggregate (filterHits q st.hits), rfl, ?_, ?_, ?_, ?_⟩
  · unfold aggregate
    rw [foldl_countHit_total]
  · unfold aggregate
    rw [foldl_countHit_total, foldl_countHit_recent]
    exact recentHits_length _
  · unfold aggregate
    rw [foldl_countHit_total, foldl_countHit_recent]
    exact recentHits_eq_take_reverse _
  · unfold aggregate
    rw [foldl_countHit_total, foldl_countHit_recent]
    unfold recentHits
    rw [List.reverse_reverse]
    congr 1
    simp only
    omega

theorem filterBy_eq_filter (field : Hit → Str) (value : Option Str) (hits : List Hit) :
    filterBy field value hits = hits.filter fun h => selects value (field h) := by
  unfold filterBy
  cases value with
  | none => simp [truthy, selects]
  | some v =>
    cases v with
    | nil => simp [truthy, selects]
    | cons c cs =>
      have ht : truthy (some (c :: cs)) = true := rfl
      rw [if_pos ht]
      apply List.filter_congr
      intro h _
      simp [selects]

theorem filterHits_eq_filter (q : Query) (hits : List Hit) :
    filterHits q hits = hits.filter (matchesQuery q) := by
  unfold filterHits
  rw [filterBy_eq_filter, filterBy_eq_filter, List.filter_filter]
  apply List.filter_congr
  intro h _
  simp [matchesQuery, Bool.and_comm]

theorem countSum_cons (e : Str × CountVal) (obj : List (Str × CountVal)) :
    countSum (e :: obj) = e.2.toNat + countSum obj := by
  simp [countSum]

theorem countSum_assocSet_of_none (obj : List (Str × CountVal)) (k : Str) (v : CountVal)
    (h : assocGet obj k = none) : countSum (assocSet obj k v) = countSum obj + v.toNat := by
  induction obj with
  | nil => simp [assocSet, countSum]
  | cons e obj ih =>
    rw [assocGet_cons] at h
    by_cases hk : (e.1 == k) = true
    · rw [if_pos hk] at h
      cases h
    · rw [if_neg hk] at h
      rw [assocSet, if_neg hk, countSum_cons, countSum_cons, ih h]
      omega

theorem countSum_assocSet_of_some (obj : List (Str × CountVal)) (k : Str) (v w : CountVal)
    (h : assocGet obj k = some w) :
    countSum (assocSet obj k v) + w.toNat = countSum obj + v.toNat := by
  induction obj with
  | nil => cases h
  | cons e obj ih =>
    rw [assocGet_cons] at h
    by_cases hk : (e.1 == k) = true
    · rw [if_pos hk] at h
      cases h
      rw [assocSet, if_pos hk, countSum_cons, countSum_cons]
      show v.toNat + countSum obj + e.2.toNat = e.2.toNat + countSum obj + v.toNat
      omega
    · rw [if_neg hk] at h
      rw [assocSet, if_neg hk, countSum_cons, countSum_cons]
      have := ih h
      omega

theorem mem_of_assocGet {β : Type} (m : List (Str × β)) (k : Str) (w : β)
    (h : assocGet m k = some w) : ∃ e ∈ m, e.2 = w := by
  unfold assocGet at h
  rw [Option.map_eq_some'] at h
  obtain ⟨e, he, hw⟩ := h
  exact ⟨e, List.mem_of_find?_eq_some he, hw⟩

/-- One `forEach` step on a counter whose key is not inherited from
`Object.prototype`: the counter stays numeric and its sum grows by 1. -/
theorem bumpCount_numeric (obj : List (Str × CountVal)) (k : Str)
    (hk : objectPrototypeKeys.contains k = false)
    (hnum : ∀ e ∈ obj, ∃ n, e.2 = .num n) :
    (∀ e ∈ bumpCount obj k, ∃ n, e.2 = .num n) ∧
      countSum (bumpCount obj k) = countSum obj + 1 := by
  unfold bumpCount
  cases hget : assocGet obj k with
  | none =>
    simp only [hk, Bool.false_eq_true, if_false]
    refine ⟨?_, countSum_assocSet_of_none obj k _ hget⟩
    intro e he
    rcases mem_assocSet obj k _ e he with h | h
    · exact hnum e h
    · exact ⟨1, by rw [h]⟩
  | some w =>
    obtain ⟨e0, he0, hw⟩ := mem_of_assocGet obj k w hget
    obtain ⟨n, hn⟩ := hnum e0 he0
    rw [hw] at hn
    subst hn
    simp only
    refine ⟨?_, ?_⟩
    · intro e he
      rcases mem_assocSet obj k _ e he with h | h
      · exact hnum e h
      · exact ⟨n + 1, by rw [h]⟩
    · have := countSum_assocSet_of_some obj k (.num (n + 1)) (.num n) hget
      simp only [CountVal.toNat] at this
      omega

theorem foldl_bumpCount_numeric (hits : List Hit) (obj : List (Str × CountVal))
    (hk : ∀ h ∈ hits, objectPrototypeKeys.contains h.type = false)
    (hnum : ∀ e ∈ obj, ∃ n, e.2 = .num n) :
    (∀ e ∈ hits.foldl (fun o h => bumpCount o h.type) obj, ∃ n, e.2 = .num n) ∧
      countSum (hits.foldl (fun o h => bumpCount o h.type) obj) = countSum obj + hits.length := by
  induction hits generalizing obj with
  | nil => exact ⟨hnum, rfl⟩
  | cons h hits ih =>
    obtain ⟨h1, h2⟩ := bumpCount_numeric obj h.type (hk h (List.mem_cons_self _ _)) hnum
    obtain ⟨h3, h4⟩ := ih (bumpCount obj h.type)
      (fun x hx => hk x (List.mem_cons_of_mem _ hx)) h1
    rw [List.foldl_cons]
    refine ⟨h3, ?_⟩
    rw [h4, h2, List.length_cons]
    omega

/-- C6: on a Hit Log whose records all have type `redirect` or `pixel`, and for
every pair of optional filters (a missing or empty one selects everything),
the stats result has `total` equal to the number of hits that match the
filters, every count in `byType` is a number, and these counts add up to
`total`. -/
theorem stats_total_and_byType (q : Query) (st : Store)
    (htypes : ∀ h ∈ st.hits, h.type = "redirect".toList ∨ h.type = "pixel".toList) :
    ∃ s, (statsHandler q st).1 = .stats s ∧
      s.total = (st.hits.filter (matchesQuery q)).length ∧
      (∀ e ∈ s.byType, ∃ n, e.2 = .num n) ∧
      countSum s.byType = s.total := by
  have hk : ∀ h ∈ filterHits q st.hits, objectPrototypeKeys.contains h.type = false := by
    intro h hh
    rw [filterHits_eq_filter] at hh
    rcases htypes h (List.mem_filter.mp hh).1 with ht | ht <;> rw [ht] <;> decide
  obtain ⟨hnum, hsum⟩ := foldl_bumpCount_numeric (filterHits q st.hits) [] hk
    (fun e he => by cases he)
  refine ⟨aggregate (filterHits q st.hits), rfl, ?_, ?_, ?_⟩
  · unfold aggregate
    rw [foldl_countHit_total, filterHits_eq_filter]
  · unfold aggregate
    rw [foldl_countHit_byType]
    exact hnum
  · unfold aggregate
    rw [foldl_countHit_byType, foldl_countHit_total, hsum]
    simp [countSum]

/-- Witness of C6: the sample log filtered by the slug `abc`. -/
theorem stats_total_and_byType_witness :
    ∃ s, (statsHandler ⟨some "abc".toList, none⟩ ⟨[], sampleHits⟩).1 = .stats s ∧
      s.total = (sampleHits.filter (matchesQuery ⟨some "abc".toList, none⟩)).length ∧
      (∀ e ∈ s.byType, ∃ n, e.2 = .num n) ∧
      countSum s.byType = s.total :=
  stats_total_and_byType ⟨some "abc".toList, none⟩ ⟨[], sampleHits⟩ (by decide)

/-! ## Properties of the CSV export -/

theorem escapeQuotes_cons (c : Char) (cell : Str) :
    escapeQuotes (c :: cell) =
      if c = '"' then '"' :: '"' :: escapeQuotes cell else c :: escapeQuotes cell := by
  unfold escapeQuotes
  rw [List.flatMap_cons]
  by_cases hc : c = '"'
  · subst hc; rfl
  · have hb : (c == '"') = false := by simpa using hc
    rw [hb, if_neg hc]
    rfl

theorem unescapeQuotes_escapeQuotes (cell : Str) :
    unescapeQuotes (escapeQuotes cell) = cell := by
  induction cell with
  | nil => rfl
  | cons c cell ih =>
    rw [escapeQuotes_cons]
    by_cases hc : c = '"'
    · subst hc
      rw [if_pos rfl, unescapeQuotes, ih]
    · rw [if_neg hc, unescapeQuotes, ih]
      intro rest h1 _
      exact hc h1

theorem readCell_csvCell (cell : Str) : readCell (csvCell cell) = cell := by
  show unescapeQuotes (escapeQuotes cell ++ ['"']).dropLast = cell
  rw [List.dropLast_concat]
  exact unescapeQuotes_escapeQuotes cell

/-- C7: a cell is rendered as a double quote, the cell text in which each double
quote is written twice and every other character once, and a closing double
quote.  The rendering can be read back: dropping the outer quotes and
undoubling gives the cell again, so two different cells never render to the
same field. -/
theorem csvCell_reversible (cell : Str) :
    csvCell cell = ['"'] ++ escapeQuotes cell ++ ['"'] ∧
    escapeQuotes [] = [] ∧
    (∀ c rest, escapeQuotes (c :: rest) =
      if c = '"' then '"' :: '"' :: escapeQuotes rest else c :: escapeQuotes rest) ∧
    readCell (csvCell cell) = cell ∧
    (∀ other, csvCell cell = csvCell other → cell = other) := by
  refine ⟨rfl, rfl, escapeQuotes_cons, readCell_csvCell cell, ?_⟩
  intro other h
  rw [← readCell_csvCell cell, h, readCell_csvCell]

theorem not_mem_escapeQuotes (cell : Str) (h : '\n' ∉ cell) : '\n' ∉ escapeQuotes cell := by
  induction cell with
  | nil => exact List.not_mem_nil _
  | cons c cell ih =>
    rw [List.mem_cons, not_or] at h
    have ih' := ih h.2
    rw [escapeQuotes_cons]
    by_cases hc : c = '"'
    · rw [if_pos hc]
      intro hm
      rcases List.mem_cons.mp hm with h1 | hm
      · exact absurd h1 (by decide)
      · rcases List.mem_cons.mp hm with h1 | hm
        · exact absurd h1 (by decide)
        · exact ih' hm
    · rw [if_neg hc]
      intro hm
      rcases List.mem_cons.mp hm with h1 | hm
      · exact h.1 h1
      · exact ih' hm

theorem not_mem_csvCell (cell : Str) (h : '\n' ∉ cell) : '\n' ∉ csvCell cell := by
  unfold csvCell
  intro hm
  rcases List.mem_cons.mp hm with h1 | hm
  · exact absurd h1 (by decide)
  · rcases List.mem_append.mp hm with hm | hm
    · exact not_mem_escapeQuotes cell h hm
    · rw [List.mem_singleton] at hm
      exact absurd hm (by decide)

theorem not_mem_intercalate_comma (fields : List Str) (h : ∀ f ∈ fields, '\n' ∉ f) :
    '\n' ∉ [','].intercalate fields := by
  induction fields with
  | nil => simp [List.intercalate]
  | cons f fields ih =>
    cases fields with
    | nil =>
      have : [','].intercalate [f] = f := by simp [List.intercalate]
      rw [this]
      exact h f (List.mem_cons_self _ _)
    | cons g fields =>
      have hrec : [','].intercalate (f :: g :: fields) =
          f ++ ',' :: [','].intercalate (g :: fields) := by
        simp [List.intercalate]
      rw [hrec]
      intro hm
      rcases List.mem_append.mp hm with hm | hm
      · exact h f (List.mem_cons_self _ _) hm
      · rcases List.mem_cons.mp hm with h1 | hm
        · exact absurd h1 (by decide)
        · exact ih (fun x hx => h x (List.mem_cons_of_mem _ hx)) hm

theorem not_mem_csvLine (row : List Str) (h : ∀ cell ∈ row, '\n' ∉ cell) :
    '\n' ∉ csvLine row := by
  unfold csvLine
  apply not_mem_intercalate_comma
  intro f hf
  obtain ⟨cell, hcell, rfl⟩ := List.mem_map.mp hf
  exact not_mem_csvCell cell (h cell hcell)

/-- C8, as stated, fails: the number of newline-separated lines of the export is
not always the number of filtered hits plus one.  A hit whose slug holds a line
break makes a row that spans two lines. -/
theorem csv_lines_not_hits_plus_one :
    ¬ ∀ (q : Query) (st : Store) (body : Str), (exportCsvHandler q st).1 = .csv body →
        (body.splitOn '\n').length = (filterHits q st.hits).length + 1 := by
  intro h
  have h3 := h ⟨none, none⟩ lineBreakStore _ rfl
  revert h3
  decide

/-- C8, amended: the CSV text of the export is the rendered header row followed
by one rendered row per filtered hit, in Hit Log order, joined by `'\n'`; that
is the number of filtered hits plus one rows.  When no field of a filtered hit
holds a line break, the newline-separated lines of the text are exactly these
rows. -/
theorem csv_rows (q : Query) (st : Store) :
    (exportCsvHandler q st).2 = st ∧
    (exportCsvHandler q st).1 = .csv (['\n'].intercalate
      (csvLine csvHeaders :: (filterHits q st.hits).map fun h => csvLine (hitCells h))) ∧
    csvHeaders.length = 9 ∧
    (csvLine csvHeaders :: (filterHits q st.hits).map fun h => csvLine (hitCells h)).length =
      (filterHits q st.hits).length + 1 ∧
    ((∀ h ∈ filterHits q st.hits, ∀ cell ∈ hitCells h, '\n' ∉ cell) →
      ∃ body, (exportCsvHandler q st).1 = .csv body ∧
        body.splitOn '\n' =
          csvLine csvHeaders :: (filterHits q st.hits).map fun h => csvLine (hitCells h)) := by
  have hbody : csvText (filterHits q st.hits) = ['\n'].intercalate
      (csvLine csvHeaders :: (filterHits q st.hits).map fun h => csvLine (hitCells h)) := by
    unfold csvText
    rw [List.map_cons, List.map_map]
    rfl
  refine ⟨rfl, ?_, rfl, ?_, ?_⟩
  · unfold exportCsvHandler
    rw [hbody]
  · rw [List.length_cons, List.length_map]
  · intro hclean
    refine ⟨_, rfl, ?_⟩
    rw [hbody]
    apply List.splitOn_intercalate
    · intro line hline
      rcases List.mem_cons.mp hline with h1 | hline
      · rw [h1]
        decide
      · obtain ⟨hit, hhit, rfl⟩ := List.mem_map.mp hline
        exact not_mem_csvLine _ (hclean hit hhit)
    · exact List.cons_ne_nil _ _

/-- Witness of C8: the export of the sample log filtered by type `pixel`. -/
theorem csv_rows_witness :
    ∃ body, (exportCsvHandler ⟨none, some "pixel".toList⟩ ⟨[], sampleHits⟩).1 = .csv body ∧
      body.splitOn '\n' = csvLine csvHeaders ::
        (filterHits ⟨none, some "pixel".toList⟩ sampleHits).map fun h => csvLine (hitCells h) :=
  (csv_rows ⟨none, some "pixel".toList⟩ ⟨[], sampleHits⟩).2.2.2.2 (by decide)

end LinkShortener
